import Mathlib

/-!
Verification development for the electron-async-storage repository.

The definitions below are a shallow embedding of the repository's code:

* `Queue.*` embeds `src/drivers/queue.ts` (the queue driver decorator):
  queued operations, the per-instance `QueueContext`, enqueueing
  (`queueOperation`), the synchronous prefix of `flushQueue` (drain +
  promise bookkeeping), the inner-driver call trace a flush produces,
  the queue-aware read paths, and the synchronous bypass methods.
  Driver-level values are strings (`Driver.setItem` takes `value: string`);
  a `QueuedOperation.value` of `none` models the JavaScript `undefined`
  of the optional `value?` field.  The inner driver is abstracted by its
  capability record (`InnerCaps`, presence of optional methods) and by
  read functions `String → Option String` / `String → Bool`; transaction
  options, which the queue driver only forwards opaquely, are omitted.
* `Mig.*` embeds the migration engine.
* `FsLite.*` embeds `src/drivers/fs-lite.ts` over an abstract filesystem
  state (path ↦ contents), with `node:fs` helpers from
  `src/drivers/utils/node-fs.ts` modelled as pure state transformers
  (`writeFile` = insert/update, `unlink` = remove ignoring ENOENT,
  `rmRecursive` = remove everything under a directory).
* `KeyNorm.*` embeds the key normalizer.
-/

namespace Queue

/-- Operation kind of a queued mutation (`type: "set" | "remove"`). -/
inductive OpType where
  | set
  | remove
deriving DecidableEq

/-- A queued mutation, from the `QueuedOperation` interface of
`src/drivers/queue.ts`.  `value = none` models the JavaScript `undefined`
of the optional `value?` field; enqueued string values are `some v`. -/
structure QueuedOperation where
  type : OpType
  key : String
  value : Option String := none
  timestamp : Nat
  isRaw : Bool := false
deriving DecidableEq

/-- Queue driver options (`QueueOptions`), with the source's
`defaultOptions`. -/
structure QueueOptions where
  batchSize : Nat := 100
  flushInterval : Nat := 1000
  maxQueueSize : Nat := 1000
  mergeUpdates : Bool := true
deriving DecidableEq

/-- Which optional methods the wrapped inner driver implements.  The
source checks presence with `driver.setItem && ...` style tests. -/
structure InnerCaps where
  hasSetItem : Bool := true
  hasSetItems : Bool := true
  hasSetItemRaw : Bool := true
  hasRemoveItem : Bool := true
  hasGetItems : Bool := true
  hasHasItemSync : Bool := true
  hasGetItemSync : Bool := true
  hasGetItemRawSync : Bool := true
  hasSetItemSync : Bool := true
  hasSetItemRawSync : Bool := true
  hasRemoveItemSync : Bool := true
deriving DecidableEq

/-- The per-instance mutable state (`QueueContext`).  The queue is a
JavaScript `Map` keyed by logical key, embedded as an insertion-ordered
association list.  `pendingFlush` holds the identity of the in-flight
flush promise (a fresh `Nat` per started flush); the timer handle is not
modelled (time-based scheduling is external). -/
structure QueueContext where
  queue : List (String × QueuedOperation) := []
  flushing : Bool := false
  disposed : Bool := false
  pendingFlush : Option Nat := none
  nextPromiseId : Nat := 0
deriving DecidableEq

/-- `Map.get`: first (and only) binding for a key. -/
def mapGet (q : List (String × QueuedOperation)) (k : String) :
    Option QueuedOperation :=
  match q with
  | [] => none
  | (k', v) :: rest => if k' = k then some v else mapGet rest k

/-- `Map.set`: replace in place (JavaScript `Map` keeps the original
insertion position on overwrite), append if absent. -/
def mapSet (q : List (String × QueuedOperation)) (k : String)
    (v : QueuedOperation) : List (String × QueuedOperation) :=
  match q with
  | [] => [(k, v)]
  | (k', v') :: rest =>
    if k' = k then (k, v) :: rest else (k', v') :: mapSet rest k v

/-- `queueOperation` from `src/drivers/queue.ts` (lines 193-215): on a
live context, store the operation (replacing the old one for the key
when `mergeUpdates` is on, dropping it when `mergeUpdates` is off and
the key is already queued).  The returned boolean reports whether the
size thresholds (`batchSize` / `maxQueueSize`) triggered an immediate
`flushQueue()` call. -/
def queueOperation (opts : QueueOptions) (ctx : QueueContext)
    (op : QueuedOperation) : QueueContext × Bool :=
  if ctx.disposed then (ctx, false)
  else
    let q :=
      if opts.mergeUpdates || !(mapGet ctx.queue op.key).isSome then
        mapSet ctx.queue op.key op
      else ctx.queue
    ({ ctx with queue := q },
      decide (opts.batchSize ≤ q.length) || decide (opts.maxQueueSize ≤ q.length))

/-- Queue driver `setItem`: no-op when the inner driver lacks `setItem`,
otherwise enqueue a `set` operation stamped with the current time. -/
def qSetItem (caps : InnerCaps) (opts : QueueOptions) (ctx : QueueContext)
    (key value : String) (ts : Nat) : QueueContext × Bool :=
  if !caps.hasSetItem then (ctx, false)
  else
    queueOperation opts ctx
      { type := OpType.set, key := key, value := some value, timestamp := ts }

/-- Queue driver `setItemRaw`: guarded by
`!driver.setItem && !driver.setItemRaw`; enqueues with `isRaw := true`. -/
def qSetItemRaw (caps : InnerCaps) (opts : QueueOptions) (ctx : QueueContext)
    (key value : String) (ts : Nat) : QueueContext × Bool :=
  if !caps.hasSetItem && !caps.hasSetItemRaw then (ctx, false)
  else
    queueOperation opts ctx
      { type := OpType.set, key := key, value := some value, timestamp := ts,
        isRaw := true }

/-- Queue driver `removeItem`: no-op when the inner driver lacks
`removeItem`, otherwise enqueue a `remove` operation. -/
def qRemoveItem (caps : InnerCaps) (opts : QueueOptions) (ctx : QueueContext)
    (key : String) (ts : Nat) : QueueContext × Bool :=
  if !caps.hasRemoveItem then (ctx, false)
  else
    queueOperation opts ctx
      { type := OpType.remove, key := key, timestamp := ts }

/-- Queue driver `setItems`: guarded by
`!driver.setItem && !driver.setItems`; enqueues each item in order. -/
def qSetItems (caps : InnerCaps) (opts : QueueOptions) (ctx : QueueContext)
    (items : List (String × String × Nat)) : QueueContext :=
  if !caps.hasSetItem && !caps.hasSetItems then ctx
  else
    items.foldl
      (fun c it =>
        (queueOperation opts c
          { type := OpType.set, key := it.1, value := some it.2.1,
            timestamp := it.2.2 }).1)
      ctx

/-- JavaScript `queued.value || null`: `undefined` and the falsy empty
string both coerce to `null`. -/
def jsOrNull : Option String → Option String
  | some v => if v = "" then none else some v
  | none => none

/-- Queue driver `hasItem`: a queued operation answers first (`set` ↦
present, `remove` ↦ absent); otherwise fall through to the inner driver. -/
def qHasItem (innerHas : String → Bool) (ctx : QueueContext)
    (key : String) : Bool :=
  match mapGet ctx.queue key with
  | some op => decide (op.type = OpType.set)
  | none => innerHas key

/-- Queue driver `getItem`: a queued `set` is visible as
`queued.value || null`, a queued `remove` as `null`; otherwise fall
through to the inner driver. -/
def qGetItem (innerGet : String → Option String) (ctx : QueueContext)
    (key : String) : Option String :=
  match mapGet ctx.queue key with
  | some op => if op.type = OpType.set then jsOrNull op.value else none
  | none => innerGet key

/-- Queue driver `getItems` (lines 238-280): queued keys are answered
from the queue and pushed into `results` first, in request order; the
remaining keys are then fetched from the inner driver (natively or
per-item — both yield one result per key in request order) and appended
after them. -/
def qGetItems (innerGet : String → Option String) (ctx : QueueContext)
    (keys : List String) : List (String × Option String) :=
  let queuedResults :=
    keys.filterMap fun k =>
      match mapGet ctx.queue k with
      | some op =>
        some (k, if op.type = OpType.set then jsOrNull op.value else none)
      | none => none
  let nonQueued := keys.filter fun k => (mapGet ctx.queue k).isNone
  queuedResults ++ nonQueued.map fun k => (k, innerGet k)

/-- A write issued to the inner driver during a flush. -/
inductive InnerCall where
  | setItemsBatch (items : List (String × Option String))
  | setItem (key : String) (value : Option String)
  | setItemRaw (key : String) (value : Option String)
  | removeItem (key : String)
deriving DecidableEq

/-- The per-item write the flush fallback issues for one set operation:
`driver.setItemRaw` for raw operations when available, else
`driver.setItem?.(...)` — which is a silent no-op (`none`) when the inner
driver lacks `setItem`. -/
def perItemSetCall (caps : InnerCaps) (op : QueuedOperation) :
    Option InnerCall :=
  if op.isRaw && caps.hasSetItemRaw then
    some (InnerCall.setItemRaw op.key op.value)
  else if caps.hasSetItem then some (InnerCall.setItem op.key op.value)
  else none

/-- Insert an operation after every already-placed operation with a
timestamp ≤ its own (stable ascending order, as JavaScript
`Array.prototype.sort` with `a.timestamp - b.timestamp`). -/
def insertOp (op : QueuedOperation) : List QueuedOperation → List QueuedOperation
  | [] => [op]
  | o :: rest =>
    if o.timestamp ≤ op.timestamp then o :: insertOp op rest
    else op :: o :: rest

/-- Stable sort of the drained operations by timestamp. -/
def sortOps (l : List QueuedOperation) : List QueuedOperation :=
  l.foldl (fun acc o => insertOp o acc) []

/-- The inner-driver call trace of one flush body over the drained
operations (lines 81-140): partition into sets (`type === "set"` with a
defined value) and removes; use the native batch `setItems` when present,
more than one set is pending and none is raw — retrying each item
individually if the batch call throws (`batchFails`) — else write each
set individually; finally issue the removes. -/
def flushCalls (caps : InnerCaps) (ops : List QueuedOperation)
    (batchFails : Bool) : List InnerCall :=
  let setOps := ops.filter fun o => decide (o.type = OpType.set) && o.value.isSome
  let removeOps := ops.filter fun o => decide (o.type = OpType.remove)
  let setCalls :=
    if 0 < setOps.length then
      if caps.hasSetItems && decide (1 < setOps.length)
          && setOps.all (fun o => !o.isRaw) then
        if batchFails then
          InnerCall.setItemsBatch (setOps.map fun o => (o.key, o.value))
            :: setOps.filterMap (perItemSetCall caps)
        else [InnerCall.setItemsBatch (setOps.map fun o => (o.key, o.value))]
      else setOps.filterMap (perItemSetCall caps)
    else []
  let removeCalls :=
    if 0 < removeOps.length then
      removeOps.filterMap fun o =>
        if caps.hasRemoveItem then some (InnerCall.removeItem o.key) else none
    else []
  setCalls ++ removeCalls

/-- What a call to `flushQueue` did: nothing, joined the in-flight flush
(receiving its pending promise), or started a new drain. -/
inductive FlushOutcome where
  | noop
  | joined (id : Nat)
  | started (id : Nat) (ops : List QueuedOperation)
deriving DecidableEq

/-- The synchronous prefix of `flushQueue` (lines 61-152), which runs
atomically on the single JavaScript thread: bail out when disposed; when
a flush is already in flight return its pending promise without touching
the queue; when the queue is empty do nothing; otherwise drain the whole
queue (sorted by timestamp), clear it, raise `flushing`, and register a
fresh pending-flush promise. -/
def flushStart (ctx : QueueContext) : QueueContext × FlushOutcome :=
  if ctx.disposed then (ctx, FlushOutcome.noop)
  else if ctx.flushing then
    (ctx,
      match ctx.pendingFlush with
      | some id => FlushOutcome.joined id
      | none => FlushOutcome.noop)
  else if ctx.queue.length = 0 then (ctx, FlushOutcome.noop)
  else
    ({ ctx with
        queue := [],
        flushing := true,
        pendingFlush := some ctx.nextPromiseId,
        nextPromiseId := ctx.nextPromiseId + 1 },
      FlushOutcome.started ctx.nextPromiseId (sortOps (ctx.queue.map Prod.snd)))

/-- The `finally` block of the flush promise: lower `flushing` and clear
`pendingFlush` (rescheduling when writes accumulated meanwhile is
timer-driven and not modelled). -/
def flushFinish (ctx : QueueContext) : QueueContext :=
  { ctx with flushing := false, pendingFlush := none }

/-- The writes the inner driver receives from one `flushQueue` call:
only a started drain issues calls; a joined or no-op call issues none. -/
def callsOfOutcome (caps : InnerCaps) (batchFails : Bool) :
    FlushOutcome → List InnerCall
  | FlushOutcome.started _ ops => flushCalls caps ops batchFails
  | _ => []

/-- Error raised by the synchronous bypass when the inner driver lacks
the needed synchronous capability (`SyncUnsupportedError`; the source
throws `new Error("Underlying driver does not support synchronous "
+ op + " operation")`). -/
inductive SyncErr where
  | syncUnsupported (operation : String)
deriving DecidableEq

/-- A direct synchronous call to the inner driver. -/
inductive InnerSyncCall where
  | setItemSync (key value : String)
  | setItemRawSync (key value : String)
  | removeItemSync (key : String)
deriving DecidableEq

/-- Queue driver `setItemSync` (lines 453-461): bypass the queue and
write directly through the inner driver's `setItemSync`; fail when that
capability is missing.  The returned context is untouched. -/
def qSetItemSync (caps : InnerCaps) (ctx : QueueContext)
    (key value : String) : Except SyncErr (QueueContext × InnerSyncCall) :=
  if !caps.hasSetItemSync then Except.error (SyncErr.syncUnsupported "setItem")
  else Except.ok (ctx, InnerSyncCall.setItemSync key value)

/-- Queue driver `setItemRawSync` (lines 463-471). -/
def qSetItemRawSync (caps : InnerCaps) (ctx : QueueContext)
    (key value : String) : Except SyncErr (QueueContext × InnerSyncCall) :=
  if !caps.hasSetItemRawSync then
    Except.error (SyncErr.syncUnsupported "setItemRaw")
  else Except.ok (ctx, InnerSyncCall.setItemRawSync key value)

/-- Queue driver `removeItemSync` (lines 473-481). -/
def qRemoveItemSync (caps : InnerCaps) (ctx : QueueContext)
    (key : String) : Except SyncErr (QueueContext × InnerSyncCall) :=
  if !caps.hasRemoveItemSync then
    Except.error (SyncErr.syncUnsupported "removeItem")
  else Except.ok (ctx, InnerSyncCall.removeItemSync key)

/-- Queue driver `hasItemSync` (lines 411-423): the pending queue answers
first; only a non-queued key needs (and checks for) the inner driver's
synchronous capability. -/
def qHasItemSync (caps : InnerCaps) (innerHasSync : String → Bool)
    (ctx : QueueContext) (key : String) : Except SyncErr Bool :=
  match mapGet ctx.queue key with
  | some op => Except.ok (decide (op.type = OpType.set))
  | none =>
    if !caps.hasHasItemSync then
      Except.error (SyncErr.syncUnsupported "hasItem")
    else Except.ok (innerHasSync key)

/-- Queue driver `getItemSync` (lines 425-437). -/
def qGetItemSync (caps : InnerCaps) (innerGetSync : String → Option String)
    (ctx : QueueContext) (key : String) : Except SyncErr (Option String) :=
  match mapGet ctx.queue key with
  | some op =>
    Except.ok (if op.type = OpType.set then jsOrNull op.value else none)
  | none =>
    if !caps.hasGetItemSync then
      Except.error (SyncErr.syncUnsupported "getItem")
    else Except.ok (innerGetSync key)

/-- Queue driver `getItemRawSync` (lines 439-451). -/
def qGetItemRawSync (caps : InnerCaps) (innerGetSync : String → Option String)
    (ctx : QueueContext) (key : String) : Except SyncErr (Option String) :=
  match mapGet ctx.queue key with
  | some op =>
    Except.ok (if op.type = OpType.set then jsOrNull op.value else none)
  | none =>
    if !caps.hasGetItemRawSync then
      Except.error (SyncErr.syncUnsupported "getItemRaw")
    else Except.ok (innerGetSync key)

/-- After `mapSet`, the key maps to the new operation. -/
theorem mapGet_mapSet_self (q : List (String × QueuedOperation))
    (k : String) (v : QueuedOperation) : mapGet (mapSet q k v) k = some v := by
  induction q with
  | nil => simp [mapSet, mapGet]
  | cons hd tl ih =>
    by_cases h : hd.1 = k
    · simp [mapSet, mapGet, h]
    · simpa [mapSet, mapGet, h] using ih

end Queue

namespace Queue

/-- Shorthand for a non-raw queued `set` operation. -/
def setOp (k v : String) (ts : Nat) : QueuedOperation :=
  { type := OpType.set, key := k, value := some v, timestamp := ts }

/-- Shorthand for a queued `remove` operation. -/
def removeOp (k : String) (ts : Nat) : QueuedOperation :=
  { type := OpType.remove, key := k, timestamp := ts }

end Queue

/-- Claim C1: with `mergeUpdates` enabled (the default), enqueuing
`setItem(k, v1)` and then `setItem(k, v2)` on a live queue driver (below
the size thresholds, so no flush is triggered) leaves exactly one queued
operation for `k`, holding `v2` with the later timestamp, and a single
subsequent flush issues exactly one inner-driver write — of `v2` — for
`k`, never a write of `v1`. -/
theorem queue_merge_last_write_wins_C1
    (caps : Queue.InnerCaps) (opts : Queue.QueueOptions)
    (ctx : Queue.QueueContext) (k v1 v2 : String) (t1 t2 : Nat) (bf : Bool)
    (hcap : caps.hasSetItem = true)
    (hmerge : opts.mergeUpdates = true)
    (hdisp : ctx.disposed = false)
    (hflush : ctx.flushing = false)
    (hq : ctx.queue = [])
    (hb : 2 ≤ opts.batchSize) (hm : 2 ≤ opts.maxQueueSize)
    (ht : t1 ≤ t2) :
    let s1 := Queue.qSetItem caps opts ctx k v1 t1
    let s2 := Queue.qSetItem caps opts s1.1 k v2 t2
    s1.2 = false ∧ s2.2 = false ∧
    s2.1.queue = [(k, Queue.setOp k v2 t2)] ∧
    (Queue.setOp k v2 t2).timestamp = max t1 t2 ∧
    (Queue.flushStart s2.1).2
      = Queue.FlushOutcome.started s2.1.nextPromiseId [Queue.setOp k v2 t2] ∧
    Queue.callsOfOutcome caps bf (Queue.flushStart s2.1).2
      = [Queue.InnerCall.setItem k (some v2)] := by
  intro s1 s2
  have hb1 : ¬ (opts.batchSize ≤ 1) := by omega
  have hm1 : ¬ (opts.maxQueueSize ≤ 1) := by omega
  have hs1 : s1 = ({ ctx with queue := [(k, Queue.setOp k v1 t1)] }, false) := by
    simp [s1, Queue.qSetItem, Queue.queueOperation, hcap, hmerge, hdisp, hq,
      Queue.mapSet, hb1, hm1, Queue.setOp]
  have hs2 : s2 = ({ ctx with queue := [(k, Queue.setOp k v2 t2)] }, false) := by
    simp [s2, hs1, Queue.qSetItem, Queue.queueOperation, hcap, hmerge, hdisp,
      Queue.mapSet, Queue.mapGet, hb1, hm1, Queue.setOp]
  refine ⟨by simp [hs1], by simp [hs2], by simp [hs2], ?_, ?_, ?_⟩
  · simpa [Queue.setOp] using (Nat.max_eq_right ht).symm
  · simp [hs2, Queue.flushStart, hdisp, hflush, Queue.sortOps, Queue.insertOp]
  · simp [hs2, Queue.flushStart, hdisp, hflush, Queue.sortOps, Queue.insertOp,
      Queue.callsOfOutcome, Queue.flushCalls, Queue.perItemSetCall, hcap,
      Queue.setOp]

/-- Concrete instance of `queue_merge_last_write_wins_C1` with the
default options and a fresh context. -/
theorem queue_merge_last_write_wins_C1_witness :
    (Queue.qSetItem {} {}
        (Queue.qSetItem {} {} {} "k" "v1" 1).1 "k" "v2" 2).1.queue
      = [("k", Queue.setOp "k" "v2" 2)] ∧
    Queue.callsOfOutcome {} false
        (Queue.flushStart (Queue.qSetItem {} {}
          (Queue.qSetItem {} {} {} "k" "v1" 1).1 "k" "v2" 2).1).2
      = [Queue.InnerCall.setItem "k" (some "v2")] := by
  have h := queue_merge_last_write_wins_C1 {} {} {} "k" "v1" "v2" 1 2 false
    rfl rfl rfl rfl rfl (by decide) (by decide) (by decide)
  exact ⟨h.2.2.1, h.2.2.2.2.2⟩

/-- Claim C2: at most one flush is in flight per queue driver instance.
A `flushQueue` call made while a flush is in progress performs no second
drain, leaves the context untouched and receives the in-flight flush's
pending promise, so two concurrent `flush()` calls hand the inner driver
exactly the call trace of a single flush of the drained operations. -/
theorem flush_at_most_once_in_flight_C2
    (caps : Queue.InnerCaps) (ctx : Queue.QueueContext) (bf : Bool)
    (hdisp : ctx.disposed = false) (hfl : ctx.flushing = false)
    (hq : ctx.queue ≠ []) :
    let drained := Queue.sortOps (ctx.queue.map Prod.snd)
    let r1 := Queue.flushStart ctx
    let r2 := Queue.flushStart r1.1
    r1.2 = Queue.FlushOutcome.started ctx.nextPromiseId drained ∧
    r2.2 = Queue.FlushOutcome.joined ctx.nextPromiseId ∧
    r2.1 = r1.1 ∧
    Queue.callsOfOutcome caps bf r1.2 ++ Queue.callsOfOutcome caps bf r2.2
      = Queue.flushCalls caps drained bf := by
  intro drained r1 r2
  have hlen : ¬ (ctx.queue.length = 0) := by
    simpa [List.length_eq_zero] using hq
  have hr1 : r1 = ({ ctx with
      queue := [],
      flushing := true,
      pendingFlush := some ctx.nextPromiseId,
      nextPromiseId := ctx.nextPromiseId + 1 },
      Queue.FlushOutcome.started ctx.nextPromiseId drained) := by
    simp [r1, Queue.flushStart, hdisp, hfl, hlen, drained]
  have hr2 : r2 = (r1.1, Queue.FlushOutcome.joined ctx.nextPromiseId) := by
    simp [r2, hr1, Queue.flushStart, hdisp]
  refine ⟨by simp [hr1], by simp [hr2], by simp [hr2], ?_⟩
  simp [hr1, hr2, Queue.callsOfOutcome]

/-- Concrete instance of `flush_at_most_once_in_flight_C2`: a queue with
one pending set; the second concurrent flush joins the first and the
inner driver sees the single write once. -/
theorem flush_at_most_once_in_flight_C2_witness :
    (Queue.flushStart
        (Queue.flushStart { queue := [("k", Queue.setOp "k" "v" 0)] }).1).2
      = Queue.FlushOutcome.joined 0 ∧
    Queue.callsOfOutcome {} false
        (Queue.flushStart { queue := [("k", Queue.setOp "k" "v" 0)] }).2 ++
      Queue.callsOfOutcome {} false
        (Queue.flushStart
          (Queue.flushStart { queue := [("k", Queue.setOp "k" "v" 0)] }).1).2
      = Queue.flushCalls {} [Queue.setOp "k" "v" 0] false := by
  have h := flush_at_most_once_in_flight_C2 {}
    { queue := [("k", Queue.setOp "k" "v" 0)] } false rfl rfl (by decide)
  exact ⟨h.2.1, by simpa [Queue.sortOps, Queue.insertOp] using h.2.2.2⟩

/-- Claim C3 fails as stated: driver-level values are strings, and for
the (JavaScript-falsy) empty-string value the queue driver's `getItem`
computes `queued.value || null` and answers `null` — not the queued
value — even though `hasItem` still answers `true` and the inner driver
holds something else entirely. -/
theorem queue_read_your_writes_C3_counterexample :
    Queue.qGetItem (fun _ => some "w")
        (Queue.qSetItem {} {} {} "k" "" 1).1 "k" = none ∧
    (none : Option String) ≠ some "" ∧
    Queue.qHasItem (fun _ => false)
        (Queue.qSetItem {} {} {} "k" "" 1).1 "k" = true := by
  refine ⟨by rfl, by decide, by rfl⟩

/-- Claim C3, amended: on a live queue driver whose inner driver
implements `setItem`/`removeItem` (otherwise the call is a silent
no-op), and when the new operation is actually stored (`mergeUpdates`
on, or the key not already queued), a queued `setItem(k, v)` with a
non-empty `v` makes `getItem(k)` return `v` and `hasItem(k)` return
`true` before any flush; a queued `removeItem(k)` makes `getItem(k)`
return `null` and `hasItem(k)` return `false` — all regardless of what
the inner driver currently holds for `k`.  (For the empty string,
`getItem` degrades to `null` by the `value || null` coercion while
`hasItem` still answers `true`.) -/
theorem queue_read_your_writes_C3_amended
    (caps : Queue.InnerCaps) (opts : Queue.QueueOptions)
    (ctx : Queue.QueueContext) (k v : String) (ts : Nat)
    (innerGet : String → Option String) (innerHas : String → Bool)
    (hset : caps.hasSetItem = true) (hrem : caps.hasRemoveItem = true)
    (hdisp : ctx.disposed = false)
    (hfresh : opts.mergeUpdates = true ∨ Queue.mapGet ctx.queue k = none)
    (hv : v ≠ "") :
    Queue.qGetItem innerGet (Queue.qSetItem caps opts ctx k v ts).1 k
      = some v ∧
    Queue.qHasItem innerHas (Queue.qSetItem caps opts ctx k v ts).1 k
      = true ∧
    Queue.qGetItem innerGet (Queue.qRemoveItem caps opts ctx k ts).1 k
      = none ∧
    Queue.qHasItem innerHas (Queue.qRemoveItem caps opts ctx k ts).1 k
      = false := by
  have hsetCtx : (Queue.qSetItem caps opts ctx k v ts).1
      = { ctx with queue := Queue.mapSet ctx.queue k (Queue.setOp k v ts) } := by
    rcases hfresh with h | h <;>
      simp [Queue.qSetItem, Queue.queueOperation, hset, hdisp, h, Queue.setOp]
  have hremCtx : (Queue.qRemoveItem caps opts ctx k ts).1
      = { ctx with queue := Queue.mapSet ctx.queue k (Queue.removeOp k ts) } := by
    rcases hfresh with h | h <;>
      simp [Queue.qRemoveItem, Queue.queueOperation, hrem, hdisp, h,
        Queue.removeOp]
  refine ⟨?_, ?_, ?_, ?_⟩
  · simp [Queue.qGetItem, hsetCtx, Queue.mapGet_mapSet_self, Queue.setOp,
      Queue.jsOrNull, hv]
  · simp [Queue.qHasItem, hsetCtx, Queue.mapGet_mapSet_self, Queue.setOp]
  · simp [Queue.qGetItem, hremCtx, Queue.mapGet_mapSet_self, Queue.removeOp]
  · simp [Queue.qHasItem, hremCtx, Queue.mapGet_mapSet_self, Queue.removeOp]

/-- Concrete instance of `queue_read_your_writes_C3_amended` for a
non-empty value on a fresh default queue driver. -/
theorem queue_read_your_writes_C3_witness :
    Queue.qGetItem (fun _ => some "w")
        (Queue.qSetItem {} {} {} "k" "v" 3).1 "k" = some "v" ∧
    Queue.qHasItem (fun _ => false)
        (Queue.qSetItem {} {} {} "k" "v" 3).1 "k" = true ∧
    Queue.qGetItem (fun _ => some "w")
        (Queue.qRemoveItem {} {} {} "k" 3).1 "k" = none ∧
    Queue.qHasItem (fun _ => true)
        (Queue.qRemoveItem {} {} {} "k" 3).1 "k" = false :=
  queue_read_your_writes_C3_amended {} {} {} "k" "v" 3
    (fun _ => some "w") (fun _ => false) rfl rfl rfl (Or.inl rfl)
    (by decide)

/-- Helper for C6: with `setItem` available on the inner driver and no
raw operation in the list, the per-item fallback issues exactly one
individual `setItem` write per operation. -/
theorem filterMap_perItemSetCall_eq_map (caps : Queue.InnerCaps)
    (l : List Queue.QueuedOperation)
    (hset : caps.hasSetItem = true)
    (hraw : l.all (fun o => !o.isRaw) = true) :
    l.filterMap (Queue.perItemSetCall caps)
      = l.map fun o => Queue.InnerCall.setItem o.key o.value := by
  induction l with
  | nil => simp
  | cons hd tl ih =>
    rw [List.all_cons] at hraw
    have h1 : hd.isRaw = false := by
      have := ((Bool.and_eq_true _ _).mp hraw).1
      simpa using this
    have h2 := ih ((Bool.and_eq_true _ _).mp hraw).2
    simp [List.filterMap_cons, Queue.perItemSetCall, h1, hset, h2]

/-- Claim C6 fails as stated: a queue driver over an inner driver that
implements `setItems` but not `setItem` still enqueues through the queue
driver's `setItems`, and when the drained batch's native `setItems` call
throws, the per-item fallback is `driver.setItem?.(...)` — a silent
no-op — so no drained set operation is retried and both queued writes
are lost. -/
theorem flush_batch_fallback_C6_counterexample :
    (Queue.flushStart (Queue.qSetItems { hasSetItem := false } {} {}
        [("a", "1", 1), ("b", "2", 2)])).2
      = Queue.FlushOutcome.started 0
          [Queue.setOp "a" "1" 1, Queue.setOp "b" "2" 2] ∧
    Queue.flushCalls { hasSetItem := false }
        [Queue.setOp "a" "1" 1, Queue.setOp "b" "2" 2] true
      = [Queue.InnerCall.setItemsBatch [("a", some "1"), ("b", some "2")]] ∧
    Queue.InnerCall.setItem "a" (some "1")
      ∉ Queue.flushCalls { hasSetItem := false }
          [Queue.setOp "a" "1" 1, Queue.setOp "b" "2" 2] true := by
  refine ⟨by decide, by decide, by decide⟩

/-- Claim C6, amended: when the inner driver implements `setItem` (in
particular whenever the drained operations were enqueued through the
queue driver's `setItem`, which requires it), a failing native batch
`setItems` call during a flush of more than one non-raw set operation is
followed by an individual `setItem` retry for every set operation of the
drained batch, so no queued write is lost; if the inner driver lacks
`setItem` (reachable only via the queue driver's `setItems`), the
fallback issues no write for those operations. -/
theorem flush_batch_fallback_C6_amended
    (caps : Queue.InnerCaps) (ops : List Queue.QueuedOperation)
    (hset : caps.hasSetItem = true)
    (hsets : caps.hasSetItems = true)
    (hlen : 1 < (ops.filter fun o =>
        decide (o.type = Queue.OpType.set) && o.value.isSome).length)
    (hraw : (ops.filter fun o =>
        decide (o.type = Queue.OpType.set) && o.value.isSome).all
          (fun o => !o.isRaw) = true) :
    let setOps := ops.filter fun o =>
      decide (o.type = Queue.OpType.set) && o.value.isSome
    (Queue.flushCalls caps ops true).head?
      = some (Queue.InnerCall.setItemsBatch
          (setOps.map fun o => (o.key, o.value))) ∧
    ∀ o ∈ setOps,
      Queue.InnerCall.setItem o.key o.value ∈ Queue.flushCalls caps ops true := by
  intro setOps
  have hpos : 0 < setOps.length := Nat.lt_of_le_of_lt (Nat.zero_le 1) hlen
  have hcalls : Queue.flushCalls caps ops true
      = (Queue.InnerCall.setItemsBatch (setOps.map fun o => (o.key, o.value))
          :: setOps.map fun o => Queue.InnerCall.setItem o.key o.value)
        ++ (if 0 < (ops.filter fun o =>
              decide (o.type = Queue.OpType.remove)).length then
            (ops.filter fun o =>
              decide (o.type = Queue.OpType.remove)).filterMap fun o =>
                if caps.hasRemoveItem then
                  some (Queue.InnerCall.removeItem o.key)
                else none
          else []) := by
    have hcond2 : (caps.hasSetItems
        && decide (1 < (ops.filter fun o =>
            decide (o.type = Queue.OpType.set) && o.value.isSome).length)
        && (ops.filter fun o =>
            decide (o.type = Queue.OpType.set) && o.value.isSome).all
          (fun o => !o.isRaw)) = true := by
      simp only [Bool.and_eq_true, decide_eq_true_eq]
      exact ⟨⟨hsets, hlen⟩, hraw⟩
    simp only [Queue.flushCalls, setOps] at hpos ⊢
    rw [if_pos hpos, if_pos hcond2]
    simp [filterMap_perItemSetCall_eq_map caps _ hset hraw]
  refine ⟨by simp [hcalls], ?_⟩
  intro o ho
  rw [hcalls]
  exact List.mem_append_left _
    (List.mem_cons_of_mem _ (List.mem_map_of_mem _ ho))

/-- Concrete instance of `flush_batch_fallback_C6_amended`: two non-raw
sets, failing batch, inner driver with `setItem` — both writes retried. -/
theorem flush_batch_fallback_C6_witness :
    (Queue.flushCalls {} [Queue.setOp "a" "1" 1, Queue.setOp "b" "2" 2]
        true).head?
      = some (Queue.InnerCall.setItemsBatch
          [("a", some "1"), ("b", some "2")]) ∧
    Queue.InnerCall.setItem "a" (some "1")
      ∈ Queue.flushCalls {} [Queue.setOp "a" "1" 1, Queue.setOp "b" "2" 2]
          true ∧
    Queue.InnerCall.setItem "b" (some "2")
      ∈ Queue.flushCalls {} [Queue.setOp "a" "1" 1, Queue.setOp "b" "2" 2]
          true := by
  have h := flush_batch_fallback_C6_amended {}
    [Queue.setOp "a" "1" 1, Queue.setOp "b" "2" 2] rfl rfl
    (by decide) (by decide)
  exact ⟨h.1, h.2 (Queue.setOp "a" "1" 1) (by decide),
    h.2 (Queue.setOp "b" "2" 2) (by decide)⟩

/-- Claim C7 fails as stated: the queue driver's `getItems` pushes
queue-pending results first and appends inner-driver results after them,
so requesting `["x", "y"]` with only `y` pending returns the results in
the order `[y, x]`, not the caller's requested order `[x, y]`. -/
theorem queue_getItems_order_C7_counterexample :
    (Queue.qGetItems (fun k => if k = "x" then some "w" else none)
        { queue := [("y", Queue.setOp "y" "v" 0)] } ["x", "y"]).map Prod.fst
      = ["y", "x"] ∧
    (["y", "x"] : List String) ≠ ["x", "y"] := by
  refine ⟨by rfl, by decide⟩

/-- Claim C7, amended: the queue driver's `getItems` returns exactly one
result per requested key — first the queue-pending keys in the caller's
requested order, then the keys served by the inner driver in the
caller's requested order.  The caller's overall order is therefore
preserved exactly when no inner-driver-served key precedes a
queue-pending key in the request. -/
theorem queue_getItems_order_C7_amended
    (innerGet : String → Option String) (ctx : Queue.QueueContext)
    (keys : List String) :
    (Queue.qGetItems innerGet ctx keys).map Prod.fst
      = keys.filter (fun k => (Queue.mapGet ctx.queue k).isSome)
        ++ keys.filter (fun k => (Queue.mapGet ctx.queue k).isNone) := by
  rw [Queue.qGetItems]
  simp only [List.map_append, List.map_map]
  congr 1
  · induction keys with
    | nil => simp
    | cons hd tl ih =>
      cases h : Queue.mapGet ctx.queue hd with
      | none => simpa [List.filterMap_cons, h] using ih
      | some op => simpa [List.filterMap_cons, h] using ih
  · induction keys with
    | nil => simp
    | cons hd tl ih =>
      by_cases h : (Queue.mapGet ctx.queue hd).isNone <;>
        simp [List.filter_cons, h, Function.comp] at ih ⊢ <;> exact ih

/-- Claim C8: every synchronous write of the queue driver bypasses the
queue — on success it leaves the context untouched and issues the
corresponding direct inner-driver sync call, and it fails with the
sync-unsupported error exactly when the inner driver lacks that
synchronous capability — while the synchronous reads consult the pending
queue first (a queued key is answered from the queue, with no capability
requirement), so a synchronous read can observe an asynchronous write
that has not yet flushed. -/
theorem queue_sync_bypass_C8
    (caps : Queue.InnerCaps) (opts : Queue.QueueOptions)
    (ctx : Queue.QueueContext) (k v : String) (ts : Nat)
    (innerHasSync : String → Bool) (innerGetSync : String → Option String) :
    (Queue.qSetItemSync caps ctx k v
      = if caps.hasSetItemSync then
          Except.ok (ctx, Queue.InnerSyncCall.setItemSync k v)
        else Except.error (Queue.SyncErr.syncUnsupported "setItem")) ∧
    (Queue.qSetItemRawSync caps ctx k v
      = if caps.hasSetItemRawSync then
          Except.ok (ctx, Queue.InnerSyncCall.setItemRawSync k v)
        else Except.error (Queue.SyncErr.syncUnsupported "setItemRaw")) ∧
    (Queue.qRemoveItemSync caps ctx k
      = if caps.hasRemoveItemSync then
          Except.ok (ctx, Queue.InnerSyncCall.removeItemSync k)
        else Except.error (Queue.SyncErr.syncUnsupported "removeItem")) ∧
    (∀ op, Queue.mapGet ctx.queue k = some op →
      Queue.qHasItemSync caps innerHasSync ctx k
        = Except.ok (decide (op.type = Queue.OpType.set)) ∧
      Queue.qGetItemSync caps innerGetSync ctx k
        = Except.ok (if op.type = Queue.OpType.set then Queue.jsOrNull op.value
            else none) ∧
      Queue.qGetItemRawSync caps innerGetSync ctx k
        = Except.ok (if op.type = Queue.OpType.set then Queue.jsOrNull op.value
            else none)) ∧
    (caps.hasSetItem = true → ctx.disposed = false →
      opts.mergeUpdates = true → v ≠ "" →
      Queue.qGetItemSync caps innerGetSync
          (Queue.qSetItem caps opts ctx k v ts).1 k = Except.ok (some v)) := by
  refine ⟨?_, ?_, ?_, ?_, ?_⟩
  · cases h : caps.hasSetItemSync <;> simp [Queue.qSetItemSync, h]
  · cases h : caps.hasSetItemRawSync <;> simp [Queue.qSetItemRawSync, h]
  · cases h : caps.hasRemoveItemSync <;> simp [Queue.qRemoveItemSync, h]
  · intro op hop
    refine ⟨?_, ?_, ?_⟩
    · simp [Queue.qHasItemSync, hop]
    · simp [Queue.qGetItemSync, hop]
    · simp [Queue.qGetItemRawSync, hop]
  · intro hset hdisp hmerge hv
    have hsetCtx : (Queue.qSetItem caps opts ctx k v ts).1
        = { ctx with queue := Queue.mapSet ctx.queue k (Queue.setOp k v ts) } := by
      simp [Queue.qSetItem, Queue.queueOperation, hset, hdisp, hmerge,
        Queue.setOp]
    simp [Queue.qGetItemSync, hsetCtx, Queue.mapGet_mapSet_self, Queue.setOp,
      Queue.jsOrNull, hv]

/-- Concrete instance of `queue_sync_bypass_C8`: the sync write fails on
a sync-less inner driver and bypasses the queue on a capable one, and a
sync read observes an unflushed asynchronous write. -/
theorem queue_sync_bypass_C8_witness :
    Queue.qSetItemSync { hasSetItemSync := false } {} "k" "v"
      = Except.error (Queue.SyncErr.syncUnsupported "setItem") ∧
    Queue.qSetItemSync {} {} "k" "v"
      = Except.ok (({} : Queue.QueueContext),
          Queue.InnerSyncCall.setItemSync "k" "v") ∧
    Queue.qGetItemSync {} (fun _ => none)
        (Queue.qSetItem {} {} {} "k" "v" 7).1 "k" = Except.ok (some "v") := by
  refine ⟨?_, ?_, ?_⟩
  · simpa using (queue_sync_bypass_C8 { hasSetItemSync := false } {} {}
      "k" "v" 7 (fun _ => false) (fun _ => none)).1
  · simpa using (queue_sync_bypass_C8 {} {} {} "k" "v" 7
      (fun _ => false) (fun _ => none)).1
  · exact (queue_sync_bypass_C8 {} {} {} "k" "v" 7
      (fun _ => false) (fun _ => none)).2.2.2.2 rfl rfl rfl (by decide)

namespace Mig

/-- An observable event of one `migrate()` run: lifecycle hooks,
successful migration-function completions, a throwing
migration-function invocation, and the version persist. -/
inductive MigEvent where
  | beforeHook (c t : Nat)
  | run (v : Nat)
  | fail (v : Nat)
  | persist (t : Nat)
  | afterHook (c t : Nat)
  | errorHook (c t : Nat)
deriving DecidableEq

/-- The persisted migration bookkeeping: the raw integer stored at the
reserved `__storage_version__` key, `none` when absent. -/
structure MigState where
  version : Option Nat := none
deriving DecidableEq

/-- Modelled from the spec: the sequential migration loop of
`runMigrations` (the engine itself lives in `storage.ts`, which is not
part of the sources here; this follows spec §4.6 step 4 and the
`runMigrations` listing in `docs/DRIVERS.md`).  Each candidate version is
looked up in the registered `migrations` record (`registered`); a
registered function either completes (`failsAt v = false`, logged as
`run v`) or throws (`failsAt v = true`, logged as `fail v`, aborting the
loop); unregistered versions are silently skipped.  Returns the event
log and whether the loop completed without a throw. -/
def runMigs (registered failsAt : Nat → Bool) :
    List Nat → List MigEvent × Bool
  | [] => ([], true)
  | v :: rest =>
    if registered v then
      if failsAt v then ([MigEvent.fail v], false)
      else
        let r := runMigs registered failsAt rest
        (MigEvent.run v :: r.1, r.2)
    else runMigs registered failsAt rest

/-- Modelled from the spec: `migrate()` / `runMigrations` (spec §4.6,
`docs/DRIVERS.md`).  Read the current version via the internal bypass
(`(await storage.getItem(STORAGE_VERSION_KEY)) as number || 0`, so 0
when absent); return immediately when `current ≥ target`; otherwise run
`beforeMigration`, the migration functions for `current+1 .. target` in
ascending order, persist `target`, and run `afterMigration`; on a throw,
run `onMigrationError(error, current, target)` and re-raise (the final
`Bool` is false), leaving the persisted version untouched.  Returns the
new state, the event log, and whether the run succeeded. -/
def migrate (registered failsAt : Nat → Bool) (target : Nat)
    (st : MigState) : MigState × List MigEvent × Bool :=
  let current := st.version.getD 0
  if target ≤ current then (st, [], true)
  else
    let r := runMigs registered failsAt (List.range' (current + 1) (target - current))
    if r.2 then
      ({ version := some target },
        MigEvent.beforeHook current target :: r.1
          ++ [MigEvent.persist target, MigEvent.afterHook current target],
        true)
    else
      (st,
        MigEvent.beforeHook current target :: r.1
          ++ [MigEvent.errorHook current target],
        false)

/-- A failure-free loop completes and logs exactly the registered
versions, in order. -/
theorem runMigs_no_fail (registered failsAt : Nat → Bool) (vs : List Nat)
    (h : ∀ v ∈ vs, failsAt v = false) :
    runMigs registered failsAt vs
      = ((vs.filter registered).map MigEvent.run, true) := by
  induction vs with
  | nil => simp [runMigs]
  | cons hd tl ih =>
    have hhd : failsAt hd = false := h hd (List.mem_cons_self hd tl)
    have htl := ih fun v hv => h v (List.mem_cons_of_mem hd hv)
    cases hreg : registered hd <;>
      simp [runMigs, hreg, hhd, htl, List.filter_cons]

end Mig

/-- Claim C4: `migrate()` is monotone and idempotent.  With persisted
current version `c` and target `t`: if `c ≥ t` it returns immediately,
invoking no migration function and no hook and leaving the state
untouched; otherwise (when no migration throws) it runs exactly the
registered migration functions for versions `c+1 .. t` in ascending
order — silently skipping unregistered versions — persists `t`, and a
second `migrate()` with the same target runs nothing. -/
theorem migration_monotone_idempotent_C4
    (registered failsAt : Nat → Bool) (target : Nat) (st : Mig.MigState) :
    (target ≤ st.version.getD 0 →
      Mig.migrate registered failsAt target st = (st, [], true)) ∧
    (st.version.getD 0 < target →
      (∀ v, st.version.getD 0 < v → v ≤ target → failsAt v = false) →
      Mig.migrate registered failsAt target st
        = ({ version := some target },
            Mig.MigEvent.beforeHook (st.version.getD 0) target
              :: ((List.range' (st.version.getD 0 + 1)
                    (target - st.version.getD 0)).filter registered).map
                  Mig.MigEvent.run
              ++ [Mig.MigEvent.persist target,
                  Mig.MigEvent.afterHook (st.version.getD 0) target],
            true) ∧
      Mig.migrate registered failsAt target { version := some target }
        = ({ version := some target }, [], true)) := by
  constructor
  · intro h
    simp [Mig.migrate, h]
  · intro hlt hok
    have hrange : ∀ v ∈ List.range' (st.version.getD 0 + 1)
        (target - st.version.getD 0), failsAt v = false := by
      intro v hv
      rw [List.mem_range'] at hv
      exact hok v (by omega) (by omega)
    refine ⟨?_, ?_⟩
    · simp [Mig.migrate, Nat.not_le.mpr hlt,
        Mig.runMigs_no_fail registered failsAt _ hrange]
    · simp [Mig.migrate]

/-- Concrete instance of `migration_monotone_idempotent_C4`: the spec's
example — current version 2, target 5, functions registered at
{1, 3, 5} — runs exactly 3 and 5 in order, persists 5, and a second
`migrate()` runs nothing. -/
theorem migration_monotone_idempotent_C4_witness :
    Mig.migrate (fun v => v == 1 || v == 3 || v == 5) (fun _ => false) 5
        { version := some 2 }
      = ({ version := some 5 },
          [Mig.MigEvent.beforeHook 2 5, Mig.MigEvent.run 3, Mig.MigEvent.run 5,
            Mig.MigEvent.persist 5, Mig.MigEvent.afterHook 2 5], true) ∧
    Mig.migrate (fun v => v == 1 || v == 3 || v == 5) (fun _ => false) 5
        { version := some 5 }
      = ({ version := some 5 }, [], true) := by
  have h := (migration_monotone_idempotent_C4
    (fun v => v == 1 || v == 3 || v == 5) (fun _ => false) 5
    { version := some 2 }).2 (by decide) (fun v _ _ => rfl)
  refine ⟨?_, h.2⟩
  simpa using h.1

/-- Claim C5 fails as stated: the engine persists the target version
only after the whole run succeeds, so when migration 2 of {1, 2} throws
starting from an absent version, the persisted version stays absent
(effective version 0) — not at version 1, the last successfully
completed migration — and a retried `migrate()` re-runs migration 1,
re-running an already-applied migration.  (The error-hook/re-raise part
of the claim does hold: `errorHook` fires and the run reports failure.) -/
theorem migration_resume_C5_counterexample :
    Mig.migrate (fun v => v == 1 || v == 2) (fun v => v == 2) 2 {}
      = (({} : Mig.MigState),
          [Mig.MigEvent.beforeHook 0 2, Mig.MigEvent.run 1,
            Mig.MigEvent.fail 2, Mig.MigEvent.errorHook 0 2], false) ∧
    (({} : Mig.MigState)).version ≠ some 1 ∧
    Mig.MigEvent.run 1
      ∈ (Mig.migrate (fun v => v == 1 || v == 2) (fun v => v == 2) 2
          (Mig.migrate (fun v => v == 1 || v == 2) (fun v => v == 2) 2
            {}).1).2.1 := by
  refine ⟨by decide, by decide, by decide⟩

/-- Claim C5, amended: if a migration function throws, the error hook
fires with the run's `(current, target)` versions and the error is
re-raised (the run reports failure); the persisted version remains at
the version persisted *before the run began* (not at the last
successfully completed migration), and a retried `migrate()` therefore
repeats the entire run from that version — re-running the migrations
that had already completed before the failure. -/
theorem migration_resume_C5_amended
    (registered failsAt : Nat → Bool) (target : Nat) (st : Mig.MigState)
    (hlt : st.version.getD 0 < target)
    (hfail : (Mig.runMigs registered failsAt
        (List.range' (st.version.getD 0 + 1)
          (target - st.version.getD 0))).2 = false) :
    Mig.migrate registered failsAt target st
      = (st,
          Mig.MigEvent.beforeHook (st.version.getD 0) target
            :: (Mig.runMigs registered failsAt
                (List.range' (st.version.getD 0 + 1)
                  (target - st.version.getD 0))).1
            ++ [Mig.MigEvent.errorHook (st.version.getD 0) target],
          false) ∧
    Mig.migrate registered failsAt target
        (Mig.migrate registered failsAt target st).1
      = Mig.migrate registered failsAt target st := by
  have h1 : Mig.migrate registered failsAt target st
      = (st,
          Mig.MigEvent.beforeHook (st.version.getD 0) target
            :: (Mig.runMigs registered failsAt
                (List.range' (st.version.getD 0 + 1)
                  (target - st.version.getD 0))).1
            ++ [Mig.MigEvent.errorHook (st.version.getD 0) target],
          false) := by
    simp [Mig.migrate, Nat.not_le.mpr hlt, hfail]
  exact ⟨h1, by rw [h1]; exact h1⟩

/-- Concrete instance of `migration_resume_C5_amended`: migrations
{1, 2} with 2 throwing, starting from an absent version. -/
theorem migration_resume_C5_witness :
    Mig.migrate (fun v => v == 1 || v == 2) (fun v => v == 2) 2 {}
      = (({} : Mig.MigState),
          [Mig.MigEvent.beforeHook 0 2, Mig.MigEvent.run 1,
            Mig.MigEvent.fail 2, Mig.MigEvent.errorHook 0 2], false) ∧
    Mig.migrate (fun v => v == 1 || v == 2) (fun v => v == 2) 2
        (Mig.migrate (fun v => v == 1 || v == 2) (fun v => v == 2) 2 {}).1
      = Mig.migrate (fun v => v == 1 || v == 2) (fun v => v == 2) 2 {} := by
  have h := migration_resume_C5_amended (fun v => v == 1 || v == 2)
    (fun v => v == 2) 2 {} (by decide) (by decide)
  exact ⟨by simpa using h.1, h.2⟩

namespace KeyNorm

/-- Modelled from the spec: one character of the `/[/\\]/g → ":"`
replacement step of `normalizeKey` (spec §4.1; `normalizeKey` listing in
`docs/DRIVERS.md` — the normalizer itself lives in `utils.ts`, which is
not part of the sources here). -/
def sepToColon (c : Char) : Char :=
  if c = '/' ∨ c = '\\' then ':' else c

/-- Modelled from the spec: `key.split("?")[0]` — everything before the
first question mark. -/
def stripQuery : List Char → List Char
  | [] => []
  | c :: rest => if c = '?' then [] else c :: stripQuery rest

/-- Modelled from the spec: `replace(/:+/g, ":")` — collapse each run of
colons to a single colon. -/
def collapseColons : List Char → List Char
  | [] => []
  | [c] => [c]
  | a :: b :: rest =>
    if a = ':' ∧ b = ':' then collapseColons (b :: rest)
    else a :: collapseColons (b :: rest)

/-- Modelled from the spec: the `^:` half of `replace(/^:|:$/g, "")` —
remove one leading colon. -/
def dropLeadColon : List Char → List Char
  | [] => []
  | c :: rest => if c = ':' then rest else c :: rest

/-- Modelled from the spec: the `:$` half of `replace(/^:|:$/g, "")` —
remove one trailing colon. -/
def dropTrailColon : List Char → List Char
  | [] => []
  | [c] => if c = ':' then [] else [c]
  | a :: b :: rest => a :: dropTrailColon (b :: rest)

/-- The whole normalization pipeline on character lists. -/
def pipe (l : List Char) : List Char :=
  dropTrailColon (dropLeadColon (collapseColons ((stripQuery l).map sepToColon)))

/-- Modelled from the spec: `normalizeKey` — `""` for a falsy key, else
strip the query suffix, convert `/` and `\` to `:`, collapse repeated
colons, and trim one leading and one trailing colon. -/
def normalizeKey (s : String) : String :=
  if s = "" then "" else String.mk (pipe s.data)

/-- No two adjacent colons. -/
def noDD : List Char → Prop
  | [] => True
  | [_] => True
  | a :: b :: rest => ¬(a = ':' ∧ b = ':') ∧ noDD (b :: rest)

/-- The head, if any, is not a colon. -/
def headOk : List Char → Prop
  | [] => True
  | c :: _ => c ≠ ':'

/-- The last element, if any, is not a colon. -/
def lastOk : List Char → Prop
  | [] => True
  | [c] => c ≠ ':'
  | _ :: b :: rest => lastOk (b :: rest)

theorem noDD_tail : ∀ {a : Char} {l : List Char}, noDD (a :: l) → noDD l
  | _, [], _ => trivial
  | _, _ :: _, h => h.2

theorem stripQuery_props (c : Char) :
    ∀ l : List Char, c ∈ stripQuery l → c ∈ l ∧ ¬ c = '?'
  | [] => by simp [stripQuery]
  | a :: rest => by
    by_cases ha : a = '?'
    · simp [stripQuery, ha]
    · intro h
      simp only [stripQuery, if_neg ha] at h
      rcases List.mem_cons.mp h with h1 | h1
      · exact ⟨h1 ▸ List.mem_cons_self a rest, h1 ▸ ha⟩
      · obtain ⟨hm, hne⟩ := stripQuery_props c rest h1
        exact ⟨List.mem_cons_of_mem a hm, hne⟩

theorem stripQuery_eq_self :
    ∀ l : List Char, (∀ c ∈ l, ¬ c = '?') → stripQuery l = l
  | [] => fun _ => rfl
  | a :: rest => fun h => by
    have ha := h a (List.mem_cons_self a rest)
    simp only [stripQuery, if_neg ha]
    rw [stripQuery_eq_self rest fun c hc => h c (List.mem_cons_of_mem a hc)]

theorem map_id_of (f : Char → Char) :
    ∀ l : List Char, (∀ c ∈ l, f c = c) → l.map f = l
  | [] => fun _ => rfl
  | a :: rest => fun h => by
    rw [List.map_cons, h a (List.mem_cons_self a rest),
      map_id_of f rest fun c hc => h c (List.mem_cons_of_mem a hc)]

theorem sepToColon_eq_q {c : Char} (h : sepToColon c = '?') : c = '?' := by
  by_cases hc : c = '/' ∨ c = '\\'
  · rw [sepToColon, if_pos hc] at h
    exact absurd h (by decide)
  · rwa [sepToColon, if_neg hc] at h

theorem sepToColon_idem (c : Char) : sepToColon (sepToColon c) = sepToColon c := by
  by_cases hc : c = '/' ∨ c = '\\'
  · have h : sepToColon c = ':' := if_pos hc
    rw [h]
    decide
  · have h : sepToColon c = c := if_neg hc
    rw [h]
    exact h

theorem mem_collapseColons (c : Char) :
    ∀ l : List Char, c ∈ collapseColons l → c ∈ l
  | [] => by simp [collapseColons]
  | [d] => by simp [collapseColons]
  | a :: b :: rest => by
    by_cases h : a = ':' ∧ b = ':'
    · intro hc
      simp only [collapseColons, if_pos h] at hc
      exact List.mem_cons_of_mem a (mem_collapseColons c (b :: rest) hc)
    · intro hc
      simp only [collapseColons, if_neg h] at hc
      rcases List.mem_cons.mp hc with h1 | h1
      · exact h1 ▸ List.mem_cons_self a (b :: rest)
      · exact List.mem_cons_of_mem a (mem_collapseColons c (b :: rest) h1)

theorem collapseColons_cons (a : Char) :
    ∀ l : List Char, ∃ t, collapseColons (a :: l) = a :: t
  | [] => ⟨[], rfl⟩
  | b :: rest => by
    obtain ⟨t, ht⟩ := collapseColons_cons b rest
    by_cases h : a = ':' ∧ b = ':'
    · refine ⟨t, ?_⟩
      simp only [collapseColons, if_pos h]
      rw [ht, h.1, h.2]
    · exact ⟨collapseColons (b :: rest), by simp only [collapseColons, if_neg h]⟩

theorem noDD_collapseColons : ∀ l : List Char, noDD (collapseColons l)
  | [] => trivial
  | [_] => trivial
  | a :: b :: rest => by
    have ih := noDD_collapseColons (b :: rest)
    by_cases h : a = ':' ∧ b = ':'
    · simpa only [collapseColons, if_pos h] using ih
    · simp only [collapseColons, if_neg h]
      obtain ⟨t, ht⟩ := collapseColons_cons b rest
      rw [ht]
      rw [ht] at ih
      exact ⟨h, ih⟩

theorem collapseColons_eq_self : ∀ l : List Char, noDD l → collapseColons l = l
  | [] => fun _ => rfl
  | [_] => fun _ => rfl
  | a :: b :: rest => fun h => by
    simp only [collapseColons, if_neg h.1]
    rw [collapseColons_eq_self (b :: rest) h.2]

theorem mem_dropLeadColon (c : Char) (l : List Char)
    (h : c ∈ dropLeadColon l) : c ∈ l := by
  cases l with
  | nil => exact h
  | cons a rest =>
    by_cases ha : a = ':'
    · simp only [dropLeadColon, if_pos ha] at h
      exact List.mem_cons_of_mem a h
    · simpa only [dropLeadColon, if_neg ha] using h

theorem mem_dropTrailColon (c : Char) :
    ∀ l : List Char, c ∈ dropTrailColon l → c ∈ l
  | [] => by simp [dropTrailColon]
  | [d] => by by_cases hd : d = ':' <;> simp [dropTrailColon, hd]
  | a :: b :: rest => by
    intro h
    rcases List.mem_cons.mp h with h1 | h1
    · exact h1 ▸ List.mem_cons_self a (b :: rest)
    · exact List.mem_cons_of_mem a (mem_dropTrailColon c (b :: rest) h1)

theorem noDD_dropLeadColon (l : List Char) (h : noDD l) :
    noDD (dropLeadColon l) := by
  cases l with
  | nil => trivial
  | cons a rest =>
    by_cases ha : a = ':'
    · simpa only [dropLeadColon, if_pos ha] using noDD_tail h
    · simpa only [dropLeadColon, if_neg ha] using h

theorem dropTrailColon_cases (a : Char) : ∀ l : List Char,
    dropTrailColon (a :: l) = [] ∨ ∃ t, dropTrailColon (a :: l) = a :: t
  | [] => by
    by_cases ha : a = ':'
    · exact Or.inl (by simp [dropTrailColon, ha])
    · exact Or.inr ⟨[], by simp [dropTrailColon, ha]⟩
  | b :: rest => Or.inr ⟨dropTrailColon (b :: rest), rfl⟩

theorem noDD_dropTrailColon : ∀ l : List Char, noDD l → noDD (dropTrailColon l)
  | [] => fun _ => trivial
  | [c] => fun _ => by
    by_cases hc : c = ':'
    · simp only [dropTrailColon, if_pos hc]
      trivial
    · simp only [dropTrailColon, if_neg hc]
      trivial
  | a :: b :: rest => fun h => by
    have ih := noDD_dropTrailColon (b :: rest) h.2
    show noDD (a :: dropTrailColon (b :: rest))
    rcases dropTrailColon_cases b rest with he | ⟨t, ht⟩
    · rw [he]
      trivial
    · rw [ht]
      rw [ht] at ih
      exact ⟨h.1, ih⟩

theorem headOk_dropLeadColon (l : List Char) (h : noDD l) :
    headOk (dropLeadColon l) := by
  cases l with
  | nil => trivial
  | cons a rest =>
    by_cases ha : a = ':'
    · simp only [dropLeadColon, if_pos ha]
      cases rest with
      | nil => trivial
      | cons b r => exact fun hb => h.1 ⟨ha, hb⟩
    · simp only [dropLeadColon, if_neg ha]
      exact ha

theorem headOk_dropTrailColon : ∀ l : List Char, headOk l → headOk (dropTrailColon l)
  | [] => fun _ => trivial
  | [c] => fun h => by
    by_cases hc : c = ':'
    · simp only [dropTrailColon, if_pos hc]
      trivial
    · simpa only [dropTrailColon, if_neg hc] using h
  | _ :: _ :: _ => fun h => h

theorem lastOk_dropTrailColon : ∀ l : List Char, noDD l → lastOk (dropTrailColon l)
  | [] => fun _ => trivial
  | [c] => fun _ => by
    by_cases hc : c = ':'
    · simp only [dropTrailColon, if_pos hc]
      trivial
    · simp only [dropTrailColon, if_neg hc]
      exact hc
  | a :: b :: rest => fun h => by
    have ih := lastOk_dropTrailColon (b :: rest) h.2
    show lastOk (a :: dropTrailColon (b :: rest))
    rcases dropTrailColon_cases b rest with he | ⟨t, ht⟩
    · have hb : b = ':' := by
        cases rest with
        | nil =>
          by_cases hb : b = ':'
          · exact hb
          · simp [dropTrailColon, hb] at he
        | cons c r => simp [dropTrailColon] at he
      rw [he]
      exact fun ha => h.1 ⟨ha, hb⟩
    · rw [ht]
      rw [ht] at ih
      exact ih

theorem dropLeadColon_eq_self (l : List Char) (h : headOk l) :
    dropLeadColon l = l := by
  cases l with
  | nil => rfl
  | cons a rest => simp only [dropLeadColon, if_neg h]

theorem dropTrailColon_eq_self : ∀ l : List Char, lastOk l → dropTrailColon l = l
  | [] => fun _ => rfl
  | [c] => fun h => by simp only [dropTrailColon, if_neg h]
  | a :: b :: rest => fun h => by
    show a :: dropTrailColon (b :: rest) = a :: b :: rest
    rw [dropTrailColon_eq_self (b :: rest) h]

theorem mem_pipe (c : Char) (l : List Char) (h : c ∈ pipe l) :
    c ∈ (stripQuery l).map sepToColon :=
  mem_collapseColons c _ (mem_dropLeadColon c _ (mem_dropTrailColon c _ h))

theorem pipe_no_q (l : List Char) : ∀ c ∈ pipe l, ¬ c = '?' := by
  intro c hc hq
  obtain ⟨d, hd, hdc⟩ := List.mem_map.mp (mem_pipe c l hc)
  exact (stripQuery_props d l hd).2 (sepToColon_eq_q (hdc.trans hq))

theorem pipe_fixed (l : List Char) : ∀ c ∈ pipe l, sepToColon c = c := by
  intro c hc
  obtain ⟨d, _, hdc⟩ := List.mem_map.mp (mem_pipe c l hc)
  rw [← hdc, sepToColon_idem]

theorem noDD_pipe (l : List Char) : noDD (pipe l) :=
  noDD_dropTrailColon _ (noDD_dropLeadColon _ (noDD_collapseColons _))

theorem headOk_pipe (l : List Char) : headOk (pipe l) :=
  headOk_dropTrailColon _ (headOk_dropLeadColon _ (noDD_collapseColons _))

theorem lastOk_pipe (l : List Char) : lastOk (pipe l) :=
  lastOk_dropTrailColon _ (noDD_dropLeadColon _ (noDD_collapseColons _))

theorem pipe_idem (l : List Char) : pipe (pipe l) = pipe l := by
  have h1 : stripQuery (pipe l) = pipe l :=
    stripQuery_eq_self _ (pipe_no_q l)
  have h2 : (pipe l).map sepToColon = pipe l :=
    map_id_of _ _ (pipe_fixed l)
  have h3 : collapseColons (pipe l) = pipe l :=
    collapseColons_eq_self _ (noDD_pipe l)
  have h4 : dropLeadColon (pipe l) = pipe l :=
    dropLeadColon_eq_self _ (headOk_pipe l)
  have h5 : dropTrailColon (pipe l) = pipe l :=
    dropTrailColon_eq_self _ (lastOk_pipe l)
  show dropTrailColon (dropLeadColon (collapseColons
    ((stripQuery (pipe l)).map sepToColon))) = pipe l
  rw [h1, h2, h3, h4, h5]

theorem normalizeKey_idem (s : String) :
    normalizeKey (normalizeKey s) = normalizeKey s := by
  by_cases hs : s = ""
  · simp [normalizeKey, hs]
  · have h1 : normalizeKey s = String.mk (pipe s.data) := by
      simp [normalizeKey, hs]
    by_cases h2 : String.mk (pipe s.data) = ""
    · rw [h1, h2]
      simp [normalizeKey]
    · rw [h1]
      simp only [normalizeKey, if_neg h2]
      rw [pipe_idem]

end KeyNorm

/-- Claim C9: the key normalizer is idempotent —
`normalize(normalize(k)) = normalize(k)` for every string `k` — and
separator-convergent: both `"a/b\c"` and `"a:b:c"` normalize to
`"a:b:c"`. -/
theorem normalize_idempotent_convergent_C9 :
    (∀ s : String, KeyNorm.normalizeKey (KeyNorm.normalizeKey s)
      = KeyNorm.normalizeKey s) ∧
    KeyNorm.normalizeKey "a/b\\c" = "a:b:c" ∧
    KeyNorm.normalizeKey "a:b:c" = "a:b:c" :=
  ⟨KeyNorm.normalizeKey_idem, by decide, by decide⟩

namespace FsLite

/-- Abstract filesystem state: absolute file path ↦ file contents. -/
abbrev FS := List (String × String)

/-- Contents of the file at a path, if any. -/
def fsGet (fs : FS) (p : String) : Option String :=
  match fs with
  | [] => none
  | (q, v) :: rest => if q = p then some v else fsGet rest p

/-- `writeFile`: create or overwrite the file at a path. -/
def fsSet (fs : FS) (p v : String) : FS :=
  match fs with
  | [] => [(p, v)]
  | (q, w) :: rest =>
    if q = p then (p, v) :: rest else (q, w) :: fsSet rest p v

/-- `unlink` (ENOENT ignored): drop the file at a path, if any. -/
def fsRemove (fs : FS) (p : String) : FS :=
  fs.filter fun e => !(e.1 == p)

/-- `rmRecursive`: drop every file under a directory. -/
def fsRemoveUnder (fs : FS) (dir : String) : FS :=
  fs.filter fun e => !(e.1.startsWith (dir ++ "/"))

/-- `fs-lite` driver options (`FSStorageOptions`); the optional `ignore`
callback, which only filters directory listings and never interacts
with `readOnly`, is omitted. -/
structure FSLiteOptions where
  base : String
  readOnly : Bool := false
  noClear : Bool := false
deriving DecidableEq

/-- The error `createError(DRIVER_NAME, "Invalid key ...")` thrown by
the key resolver for path-traversing keys. -/
inductive FSLiteErr where
  | invalidKey (key : String)
deriving DecidableEq

/-- Whether `pat` is a prefix of the second list. -/
def startsWithList : List Char → List Char → Bool
  | [], _ => true
  | _ :: _, [] => false
  | p :: ps, c :: cs => p == c && startsWithList ps cs

/-- Whether `pat` occurs anywhere in the second list. -/
def hasSubList (pat : List Char) : List Char → Bool
  | [] => startsWithList pat []
  | c :: cs => startsWithList pat (c :: cs) || hasSubList pat cs

/-- The source's `PATH_TRAVERSE_RE = /\.\.:|\.\.$/`: the key contains
`"..:"` or ends with `".."`. -/
def hasTraverse (key : String) : Bool :=
  hasSubList "..:".data key.data
    || startsWithList "..".data.reverse key.data.reverse

/-- `key.replace(/:/g, "/")`. -/
def colonToSlash (key : String) : String :=
  String.mk (key.data.map fun c => if c = ':' then '/' else c)

/-- `node:path` `join(base, rel)`, with `join(base, ".")` normalizing to
`base`. -/
def joinPath (base rel : String) : String :=
  if rel = "." then base else base ++ "/" ++ rel

/-- The driver's key resolver `r`: reject traversal keys, else join the
base with the colon-to-slash translated key. -/
def rPath (o : FSLiteOptions) (key : String) : Except FSLiteErr String :=
  if hasTraverse key then Except.error (FSLiteErr.invalidKey key)
  else Except.ok (joinPath o.base (colonToSlash key))

/-- Paths under a directory, relative to it. -/
def relEntries (fs : FS) (dir : String) : List String :=
  fs.filterMap fun e =>
    if e.1.startsWith (dir ++ "/") then some (e.1.drop (dir.length + 1))
    else none

/-- The `maxDepth` filter of `readdirRecursive`: descending `maxDepth`
directory levels admits exactly the relative paths with at most
`maxDepth` separators. -/
def depthOk (maxDepth : Option Nat) (rel : String) : Bool :=
  match maxDepth with
  | none => true
  | some d => (rel.data.filter fun c => decide (c = '/')).length ≤ d

/-- `hasItem`: `existsSync(r(key))`. -/
def hasItem (o : FSLiteOptions) (fs : FS) (key : String) :
    Except FSLiteErr Bool :=
  (rPath o key).map fun p => (fsGet fs p).isSome

/-- `getItem`: `readFile(r(key), "utf8")`, `null` when missing. -/
def getItem (o : FSLiteOptions) (fs : FS) (key : String) :
    Except FSLiteErr (Option String) :=
  (rPath o key).map (fsGet fs)

/-- `getItemRaw`: `readFile(r(key))`. -/
def getItemRaw (o : FSLiteOptions) (fs : FS) (key : String) :
    Except FSLiteErr (Option String) :=
  (rPath o key).map (fsGet fs)

/-- `getMeta`: `fsp.stat(r(key))`, abstracted to the file size. -/
def getMeta (o : FSLiteOptions) (fs : FS) (key : String) :
    Except FSLiteErr (Option Nat) :=
  (rPath o key).map fun p => (fsGet fs p).map String.length

/-- `getKeys`: `readdirRecursive(r("."), ignore, maxDepth)`. -/
def getKeys (o : FSLiteOptions) (fs : FS) (maxDepth : Option Nat) :
    List String :=
  (relEntries fs (joinPath o.base ".")).filter (depthOk maxDepth)

/-- `setItem`: a silent no-op when `readOnly`, else
`writeFile(r(key), value, "utf8")`. -/
def setItem (o : FSLiteOptions) (fs : FS) (key value : String) :
    Except FSLiteErr FS :=
  if o.readOnly then Except.ok fs
  else (rPath o key).map fun p => fsSet fs p value

/-- `setItemRaw`: a silent no-op when `readOnly`, else
`writeFile(r(key), value)`. -/
def setItemRaw (o : FSLiteOptions) (fs : FS) (key value : String) :
    Except FSLiteErr FS :=
  if o.readOnly then Except.ok fs
  else (rPath o key).map fun p => fsSet fs p value

/-- `removeItem`: a silent no-op when `readOnly`, else `unlink(r(key))`. -/
def removeItem (o : FSLiteOptions) (fs : FS) (key : String) :
    Except FSLiteErr FS :=
  if o.readOnly then Except.ok fs
  else (rPath o key).map (fsRemove fs)

/-- `clear`: a silent no-op when `readOnly` or `noClear`, else
`rmRecursive(r("."))`. -/
def clear (o : FSLiteOptions) (fs : FS) : Except FSLiteErr FS :=
  if o.readOnly || o.noClear then Except.ok fs
  else (rPath o ".").map (fsRemoveUnder fs)

/-- `hasItemSync`: `existsSync(r(key))`. -/
def hasItemSync (o : FSLiteOptions) (fs : FS) (key : String) :
    Except FSLiteErr Bool :=
  (rPath o key).map fun p => (fsGet fs p).isSome

/-- `getItemSync`: `syncReadFile(r(key), "utf8")`. -/
def getItemSync (o : FSLiteOptions) (fs : FS) (key : String) :
    Except FSLiteErr (Option String) :=
  (rPath o key).map (fsGet fs)

/-- `getItemRawSync`: `syncReadFile(r(key))`. -/
def getItemRawSync (o : FSLiteOptions) (fs : FS) (key : String) :
    Except FSLiteErr (Option String) :=
  (rPath o key).map (fsGet fs)

/-- `getMetaSync`: `syncStat(r(key))`, abstracted to the file size. -/
def getMetaSync (o : FSLiteOptions) (fs : FS) (key : String) :
    Except FSLiteErr (Option Nat) :=
  (rPath o key).map fun p => (fsGet fs p).map String.length

/-- `getKeysSync`: `syncReaddirRecursive(r("."), ignore, maxDepth)`. -/
def getKeysSync (o : FSLiteOptions) (fs : FS) (maxDepth : Option Nat) :
    List String :=
  (relEntries fs (joinPath o.base ".")).filter (depthOk maxDepth)

/-- `setItemSync`: a silent no-op when `readOnly`, else
`syncWriteFile(r(key), value, "utf8")`. -/
def setItemSync (o : FSLiteOptions) (fs : FS) (key value : String) :
    Except FSLiteErr FS :=
  if o.readOnly then Except.ok fs
  else (rPath o key).map fun p => fsSet fs p value

/-- `setItemRawSync`: a silent no-op when `readOnly`, else
`syncWriteFile(r(key), value)`. -/
def setItemRawSync (o : FSLiteOptions) (fs : FS) (key value : String) :
    Except FSLiteErr FS :=
  if o.readOnly then Except.ok fs
  else (rPath o key).map fun p => fsSet fs p value

/-- `removeItemSync`: a silent no-op when `readOnly`, else
`syncUnlink(r(key))`. -/
def removeItemSync (o : FSLiteOptions) (fs : FS) (key : String) :
    Except FSLiteErr FS :=
  if o.readOnly then Except.ok fs
  else (rPath o key).map (fsRemove fs)

/-- `clearSync`: a silent no-op when `readOnly` or `noClear`, else
`syncRmRecursive(r("."))`. -/
def clearSync (o : FSLiteOptions) (fs : FS) : Except FSLiteErr FS :=
  if o.readOnly || o.noClear then Except.ok fs
  else (rPath o ".").map (fsRemoveUnder fs)

end FsLite

/-- Claim C10: on an fs-lite driver with `readOnly: true`, the mutating
operations `setItem`, `setItemRaw`, `removeItem`, `clear` and their
synchronous variants return without error and leave the filesystem state
unchanged (the `readOnly` guard fires before the key resolver, so even
traversal keys raise no error), while every read operation behaves
exactly as it does without the flag. -/
theorem fs_lite_readonly_C10
    (o : FsLite.FSLiteOptions) (fs : FsLite.FS) (key value : String)
    (maxDepth : Option Nat) (h : o.readOnly = true) :
    FsLite.setItem o fs key value = Except.ok fs ∧
    FsLite.setItemRaw o fs key value = Except.ok fs ∧
    FsLite.removeItem o fs key = Except.ok fs ∧
    FsLite.clear o fs = Except.ok fs ∧
    FsLite.setItemSync o fs key value = Except.ok fs ∧
    FsLite.setItemRawSync o fs key value = Except.ok fs ∧
    FsLite.removeItemSync o fs key = Except.ok fs ∧
    FsLite.clearSync o fs = Except.ok fs ∧
    FsLite.hasItem o fs key
      = FsLite.hasItem { o with readOnly := false } fs key ∧
    FsLite.getItem o fs key
      = FsLite.getItem { o with readOnly := false } fs key ∧
    FsLite.getItemRaw o fs key
      = FsLite.getItemRaw { o with readOnly := false } fs key ∧
    FsLite.getMeta o fs key
      = FsLite.getMeta { o with readOnly := false } fs key ∧
    FsLite.getKeys o fs maxDepth
      = FsLite.getKeys { o with readOnly := false } fs maxDepth ∧
    FsLite.hasItemSync o fs key
      = FsLite.hasItemSync { o with readOnly := false } fs key ∧
    FsLite.getItemSync o fs key
      = FsLite.getItemSync { o with readOnly := false } fs key ∧
    FsLite.getItemRawSync o fs key
      = FsLite.getItemRawSync { o with readOnly := false } fs key ∧
    FsLite.getMetaSync o fs key
      = FsLite.getMetaSync { o with readOnly := false } fs key ∧
    FsLite.getKeysSync o fs maxDepth
      = FsLite.getKeysSync { o with readOnly := false } fs maxDepth := by
  refine ⟨?_, ?_, ?_, ?_, ?_, ?_, ?_, ?_, rfl, rfl, rfl, rfl, rfl, rfl, rfl,
    rfl, rfl, rfl⟩
  · simp [FsLite.setItem, h]
  · simp [FsLite.setItemRaw, h]
  · simp [FsLite.removeItem, h]
  · simp [FsLite.clear, h]
  · simp [FsLite.setItemSync, h]
  · simp [FsLite.setItemRawSync, h]
  · simp [FsLite.removeItemSync, h]
  · simp [FsLite.clearSync, h]

/-- Concrete instance of `fs_lite_readonly_C10`: a read-only driver over
a one-file filesystem. -/
theorem fs_lite_readonly_C10_witness :
    FsLite.setItem { base := "/data", readOnly := true }
        [("/data/a", "x")] "a" "y" = Except.ok [("/data/a", "x")] ∧
    FsLite.clearSync { base := "/data", readOnly := true }
        [("/data/a", "x")] = Except.ok [("/data/a", "x")] ∧
    FsLite.getItem { base := "/data", readOnly := true }
        [("/data/a", "x")] "a"
      = FsLite.getItem { base := "/data", readOnly := false }
        [("/data/a", "x")] "a" := by
  have h := fs_lite_readonly_C10 { base := "/data", readOnly := true }
    [("/data/a", "x")] "a" "y" none rfl
  exact ⟨h.1, h.2.2.2.2.2.2.2.1, h.2.2.2.2.2.2.2.2.2.1⟩
